import Mathlib

/-!
Verification development for the Location720 dashboard widget
(`custom_components/location720/www/location720.js`).

The file shallowly embeds the algorithmic core of the source file:

* the `CrashDetector` class (speed-window crash heuristic with pending
  alerts, cancellation and cooldown),
* the `HistoryAPI` history-processing pipeline (`processHistory`,
  `_calculateStats`, `_detectTrips`, `_calculateZoneTime`),
* the playback point lookup (`_updateMarkersToTime`).

Modelling conventions:

* JS numbers are embedded as `ℚ` (the source never relies on
  floating-point rounding in the properties treated here); timestamps are
  rational epoch milliseconds, so `new Date(x) - new Date(y)` is `x - y`.
* JS objects used as string-keyed maps (`_speedHistory`, `_pendingAlerts`,
  `_lastAlert`, `zoneTime`) are embedded as association lists
  `List (String × α)` with JS object semantics: updating an existing key
  keeps its position, a new key is appended (`aSet`), `delete` removes the
  key (`aDel`).
* JS truthiness tests on numbers (`h.a.latitude`, `this._lastAlert[p]`)
  are embedded as "present and nonzero"; on strings (`point.zone || ...`,
  `!previous.zone`) as "present and nonempty".
* `Date.now()` is impure in the source; it is passed explicitly as a
  `now` argument.  `setTimeout` scheduling is modelled by storing the
  deadline in the pending alert and exposing the timer callback
  (`_confirmAndSendAlert`) as an explicit step `confirmAndSendAlert`;
  `clearTimeout` is modelled by removing the pending entry, after which
  the callback is a no-op.
* The haversine distance `GeoUtils.distance` is transcendental
  (`sin`/`cos`/`atan2` on floats), so the geometry-independent algorithms
  are parameterised by an abstract distance function `Dist`
  (latitude/longitude pairs to metres); every theorem about them holds
  for all distance functions, and concrete evaluations instantiate an
  explicit one.
* Presentation-only code (message templating, DOM, `console` logging and
  the `window` event dispatch) is outside the embedded state.
-/

/-! ## Association list maps (JS string-keyed objects) -/

def aGet {α : Type} (m : List (String × α)) (k : String) : Option α :=
  match m with
  | [] => none
  | (k', v) :: rest => if k' = k then some v else aGet rest k

def aSet {α : Type} (m : List (String × α)) (k : String) (v : α) :
    List (String × α) :=
  match m with
  | [] => [(k, v)]
  | (k', v') :: rest => if k' = k then (k, v) :: rest else (k', v') :: aSet rest k v

def aDel {α : Type} (m : List (String × α)) (k : String) : List (String × α) :=
  m.filter (fun kv => kv.1 ≠ k)

/-! ## String helpers (JS `toLowerCase` / `includes`) -/

def strLower (s : String) : String :=
  String.mk (s.data.map Char.toLower)

/-- `startsAt needle hay`: `needle` occurs at the start of `hay`. -/
def startsAt : List Char → List Char → Bool
  | [], _ => true
  | _ :: _, [] => false
  | a :: as, b :: bs => a == b && startsAt as bs

/-- `subTest needle hay`: `needle` occurs contiguously somewhere in `hay`
(JS `String.prototype.includes`). -/
def subTest (needle : List Char) : List Char → Bool
  | [] => startsAt needle []
  | b :: bs => startsAt needle (b :: bs) || subTest needle bs

def strIncludes (hay needle : String) : Bool :=
  subTest needle.data hay.data

/-! ## Crash detector data model -/

/-- One entry of `_speedHistory[person]`: the object pushed by
`addReading` (`{ speed, timestamp, zone, activity, accuracy }`). -/
structure CrashReading where
  speed : ℚ
  timestamp : ℚ
  zone : Option String
  activity : Option String
  accuracy : ℚ
deriving DecidableEq

/-- The configurable thresholds of `CrashDetector._config`, with the
source defaults.  `notify_services` and `message_template` only feed the
external notification dispatch and are not part of the embedded state. -/
structure CrashConfig where
  enabled : Bool
  min_speed_before : ℚ
  max_speed_after : ℚ
  time_window : ℚ
  confirmation_delay : ℚ
  alert_cooldown : ℚ
  min_gps_accuracy : ℚ
  require_driving_activity : Bool
  ignore_zone_entry : Bool
deriving DecidableEq

def defaultCrashConfig : CrashConfig :=
  { enabled := false
    min_speed_before := 50
    max_speed_after := 5
    time_window := 5
    confirmation_delay := 30
    alert_cooldown := 5
    min_gps_accuracy := 50
    require_driving_activity := true
    ignore_zone_entry := true }

/-- A `_pendingAlerts` entry: the computed speeds and triggering reading,
the creation time, and the `setTimeout` deadline
(`now + confirmation_delay * 1000`). -/
structure PendingAlert where
  speedBefore : ℚ
  speedAfter : ℚ
  location : CrashReading
  createdAt : ℚ
  deadline : ℚ
deriving DecidableEq

/-- The per-person mutable maps of a `CrashDetector` instance. -/
structure CrashState where
  lastAlert : List (String × ℚ)
  pendingAlerts : List (String × PendingAlert)
  speedHistory : List (String × List CrashReading)
deriving DecidableEq

def emptyCrashState : CrashState := ⟨[], [], []⟩

/-- JS truthiness of a zone value (`null`/`undefined`/`""` are falsy). -/
def zoneTruthy : Option String → Bool
  | none => false
  | some s => s ≠ ""

/-- `CrashDetector._wasRecentlyDriving`. -/
def wasRecentlyDriving (readings : List CrashReading) : Bool :=
  readings.any fun r =>
    match r.activity with
    | none => false
    | some a =>
      strIncludes (strLower a) "driv" || strIncludes (strLower a) "vehicle" ||
        strIncludes (strLower a) "automotive"

/-- `CrashDetector._isZoneEntry`: the latest reading has a (truthy) zone
while the previous one does not. -/
def isZoneEntry (history : List CrashReading) : Bool :=
  if history.length < 2 then false
  else
    match history.getLast?, history.dropLast.getLast? with
    | some latest, some previous => !zoneTruthy previous.zone && zoneTruthy latest.zone
    | _, _ => false

/-- `CrashDetector._triggerPendingAlert`: record the pending alert with
its confirmation deadline (the scheduled `setTimeout`). -/
def triggerPendingAlert (cfg : CrashConfig) (st : CrashState) (person : String)
    (speedBefore speedAfter : ℚ) (latest : CrashReading) (now : ℚ) : CrashState :=
  { st with
    pendingAlerts := aSet st.pendingAlerts person
      ⟨speedBefore, speedAfter, latest, now, now + cfg.confirmation_delay * 1000⟩ }

/-- The decision taken by `CrashDetector._checkForCrash`, as a function of
everything the method reads: the person's trimmed speed history, the
person's `_lastAlert` and `_pendingAlerts` entries, and `Date.now()`.
`some (speedBefore, speedAfter, latest)` means "trigger a pending alert";
`none` is any of the early `return`s or a failed condition. -/
def crashDecision (cfg : CrashConfig) (history : List CrashReading)
    (lastAlertVal : Option ℚ) (pendingVal : Option PendingAlert) (now : ℚ) :
    Option (ℚ × ℚ × CrashReading) :=
  if history.length < 2 then none
  else
    match history.getLast? with
    | none => none
    | some latest =>
      -- `if (this._lastAlert[personName] && (now - ...) < cooldown) return;`
      -- a stored value of `0` is falsy in JS, hence the `t ≠ 0` conjunct.
      let cooldownHit : Bool :=
        match lastAlertVal with
        | some t => decide (t ≠ 0) && decide (now - t < cfg.alert_cooldown * 60000)
        | none => false
      if cooldownHit then none
      else if pendingVal.isSome then none
      else
        let windowStart := now - cfg.time_window * 1000
        let recentReadings := history.filter fun r => decide (r.timestamp > windowStart)
        if recentReadings.length < 2 then none
        else
          match recentReadings with
          | [] => none
          | r0 :: _ =>
            let maxSpeedReading :=
              recentReadings.foldl (fun mx r => if r.speed > mx.speed then r else mx) r0
            let speedBefore := maxSpeedReading.speed
            let speedAfter := latest.speed
            let speed_drop : Bool :=
              decide (speedBefore ≥ cfg.min_speed_before) &&
                decide (speedAfter ≤ cfg.max_speed_after)
            let activity_ok : Bool :=
              !cfg.require_driving_activity || wasRecentlyDriving recentReadings
            let not_zone_entry : Bool :=
              !cfg.ignore_zone_entry || !isZoneEntry history
            let gps_accurate : Bool := decide (latest.accuracy ≤ cfg.min_gps_accuracy)
            if speed_drop && activity_ok && not_zone_entry && gps_accurate then
              some (speedBefore, speedAfter, latest)
            else none

/-- `CrashDetector._checkForCrash`: evaluate `crashDecision` on the
person's entries and either record the pending alert or leave the state
unchanged. -/
def checkForCrash (cfg : CrashConfig) (st : CrashState) (person : String)
    (now : ℚ) : CrashState :=
  match crashDecision cfg ((aGet st.speedHistory person).getD [])
      (aGet st.lastAlert person) (aGet st.pendingAlerts person) now with
  | none => st
  | some (speedBefore, speedAfter, latest) =>
    triggerPendingAlert cfg st person speedBefore speedAfter latest now

/-- `CrashDetector.addReading`. -/
def addReading (cfg : CrashConfig) (st : CrashState) (person : String)
    (r : CrashReading) (now : ℚ) : CrashState :=
  if !cfg.enabled then st
  else
    -- `if (!this._speedHistory[personName]) this._speedHistory[personName] = [];`
    let st0 :=
      match aGet st.speedHistory person with
      | none => { st with speedHistory := aSet st.speedHistory person [] }
      | some _ => st
    if r.accuracy > cfg.min_gps_accuracy then st0
    else
      let history := (aGet st0.speedHistory person).getD [] ++ [r]
      let cutoff := now - 60000
      let trimmed := history.filter fun x => decide (x.timestamp > cutoff)
      let st1 := { st0 with speedHistory := aSet st0.speedHistory person trimmed }
      checkForCrash cfg st1 person now

/-- `CrashDetector.cancelPendingAlert`: returns whether a pending alert
was discarded, together with the new state (`clearTimeout` + `delete`). -/
def cancelPendingAlert (st : CrashState) (person : String) : Bool × CrashState :=
  match aGet st.pendingAlerts person with
  | some _ => (true, { st with pendingAlerts := aDel st.pendingAlerts person })
  | none => (false, st)

/-- `CrashDetector._confirmAndSendAlert`, the `setTimeout` callback:
if the pending alert is still there, clear it and stamp the cooldown
(`lastAlert = now`).  The notification build/dispatch is external I/O. -/
def confirmAndSendAlert (st : CrashState) (person : String) (now : ℚ) : CrashState :=
  match aGet st.pendingAlerts person with
  | none => st
  | some _ =>
    { st with
      pendingAlerts := aDel st.pendingAlerts person
      lastAlert := aSet st.lastAlert person now }

/-- One `addReading` call site: person, the reading, and the wall-clock
`Date.now()` value at the call. -/
structure ReadingEvent where
  person : String
  reading : CrashReading
  now : ℚ
deriving DecidableEq

def runReadings (cfg : CrashConfig) (st : CrashState) (events : List ReadingEvent) :
    CrashState :=
  events.foldl (fun s e => addReading cfg s e.person e.reading e.now) st

/-- The three per-person map entries of two states agree at person `q`. -/
def agreeAt (q : String) (s1 s2 : CrashState) : Prop :=
  aGet s1.speedHistory q = aGet s2.speedHistory q ∧
    aGet s1.pendingAlerts q = aGet s2.pendingAlerts q ∧
    aGet s1.lastAlert q = aGet s2.lastAlert q

/-! Concrete crash-detector inputs used in closed evaluations. -/

/-- Defaults with `crash_detection.enabled = true`. -/
def enabledCrashConfig : CrashConfig := { defaultCrashConfig with enabled := true }

/-- Reading: speed 80 km/h at t = 0, accuracy 10, activity "driving". -/
def rFast (z : Option String) : CrashReading :=
  ⟨80, 0, z, some "driving", 10⟩

/-- Reading: speed 2 km/h at t = 4 s, accuracy 10, activity "driving". -/
def rSlow (z : Option String) : CrashReading :=
  ⟨2, 4000, z, some "driving", 10⟩

/-! ## History-processing data model -/

/-- An abstract point-to-point distance in metres, as a function of the two
latitude/longitude pairs.  The source's `GeoUtils.distance` is the haversine
formula with Earth radius 6,371,000 m, computed with transcendental
floating-point functions; every structural theorem below is proved for all
distance functions, and concrete evaluations instantiate an explicit one. -/
def DistFn : Type := ℚ → ℚ → ℚ → ℚ → ℚ

/-- A constant distance function used in closed evaluations. -/
def constDist (c : ℚ) : DistFn := fun _ _ _ _ => c

/-- The point object built by `processHistory`.  A raw mapped sample has
the placeholder values `zone = none`, `zoneId = none`, `speed = 0`,
`isMoving = false`, `isDriving = false`; the thinning loop fills the last
five fields in for every kept point (the JS mutates the same object). -/
structure TrackPoint where
  lat : ℚ
  lng : ℚ
  timestamp : ℚ
  accuracy : ℚ
  battery : Option ℚ
  state : String
  zone : Option String
  zoneId : Option String
  speed : ℚ
  isMoving : Bool
  isDriving : Bool
deriving DecidableEq

/-- The sample-identity fields of a point, untouched by enrichment. -/
def coreOf (p : TrackPoint) : ℚ × ℚ × ℚ × ℚ × Option ℚ × String :=
  (p.lat, p.lng, p.timestamp, p.accuracy, p.battery, p.state)

/-- `pdist d p q`: the distance function applied to two points' coordinates
(`GeoUtils.distance(p, q)` in metres). -/
def pdist (d : DistFn) (p q : TrackPoint) : ℚ :=
  d p.lat p.lng q.lat q.lng

/-- `GeoUtils.speed(p1, p2)` in km/h: distance in km over elapsed hours,
`0` when the elapsed time is `≤ 0`. -/
def gSpeed (d : DistFn) (p1 p2 : TrackPoint) : ℚ :=
  let dm := pdist d p1 p2
  let timeMs := p2.timestamp - p1.timestamp
  if timeMs ≤ 0 then 0 else (dm / 1000) / (timeMs / 3600000)

/-- The metre-valued consecutive-distance sum inside
`GeoUtils.routeDistance`. -/
def routeDistanceM (d : DistFn) : List TrackPoint → ℚ
  | [] => 0
  | [_] => 0
  | p :: q :: rest => pdist d p q + routeDistanceM d (q :: rest)

/-- `GeoUtils.routeDistance(points)` in km. -/
def routeDistance (d : DistFn) (pts : List TrackPoint) : ℚ :=
  routeDistanceM d pts / 1000

/-- A Home Assistant zone entity (`zones` map value). -/
structure Zone where
  name : String
  lat : ℚ
  lng : ℚ
  radius : ℚ
deriving DecidableEq

/-- `GeoUtils.inZone(point, zone)`. -/
def inZone (d : DistFn) (p : TrackPoint) (z : Zone) : Bool :=
  decide (d p.lat p.lng z.lat z.lng ≤ z.radius)

/-- `GeoUtils.findZone(point, zones)` returning the matched entry together
with its key: the source walks `Object.entries(zones)` (insertion order,
modelled as the association-list order) and returns the first containing
zone; `zoneId` is recovered with `Object.keys(zones).find(k => zones[k] ===
zone)`, which is the matched entry's own key (reference equality). -/
def findZoneEntry (d : DistFn) (p : TrackPoint) :
    List (String × Zone) → Option (String × Zone)
  | [] => none
  | (k, z) :: rest => if inZone d p z then some (k, z) else findZoneEntry d p rest

/-- The attribute object `h.a` of a raw history sample.  Fields absent in
JS are `none`. -/
structure HistAttrs where
  latitude : Option ℚ
  longitude : Option ℚ
  gps_accuracy : Option ℚ
  battery_level : Option ℚ
deriving DecidableEq

/-- A raw history sample as returned by the history API
(`minimal_response` shape: `a` attributes, `lu`/`lc` timestamps, `s`
state). -/
structure HistSample where
  a : Option HistAttrs
  lu : Option ℚ
  lc : Option ℚ
  s : String
deriving DecidableEq

/-- First filter: `h.a && h.a.latitude && h.a.longitude` — JS truthiness,
so a coordinate that is absent *or zero* fails. -/
def sampleHasCoords (h : HistSample) : Bool :=
  match h.a with
  | none => false
  | some a =>
    (match a.latitude with
     | some x => decide (x ≠ 0)
     | none => false) &&
    (match a.longitude with
     | some y => decide (y ≠ 0)
     | none => false)

/-- Second filter: `Math.abs(h.a.latitude) <= 90 && Math.abs(h.a.longitude)
<= 180`.  It only ever runs on samples that passed `sampleHasCoords`, so
the `getD 0` defaults for absent fields are never exercised. -/
def sampleInRange (h : HistSample) : Bool :=
  match h.a with
  | none => false
  | some a => decide (|a.latitude.getD 0| ≤ 90) && decide (|a.longitude.getD 0| ≤ 180)

/-- Third filter: `h.a.latitude !== 0 && h.a.longitude !== 0`. -/
def sampleNonzero (h : HistSample) : Bool :=
  match h.a with
  | none => false
  | some a => decide (a.latitude.getD 0 ≠ 0) && decide (a.longitude.getD 0 ≠ 0)

/-- The three chained `.filter` calls of `processHistory`. -/
def filterStage (history : List HistSample) : List HistSample :=
  ((history.filter sampleHasCoords).filter sampleInRange).filter sampleNonzero

/-- `h.lu || h.lc` (JS `||`: a zero or absent `lu` falls back to `lc`).
When both are absent the JS timestamp is `undefined` (`NaN` dates); that
degenerate case is modelled as `0` and never exercised by the claims. -/
def sampleTimestamp (h : HistSample) : ℚ :=
  match h.lu with
  | some t => if t ≠ 0 then t else h.lc.getD 0
  | none => h.lc.getD 0

/-- `h.a.gps_accuracy || 999` (JS `||`: absent or zero becomes 999). -/
def sampleAccuracy (a : HistAttrs) : ℚ :=
  match a.gps_accuracy with
  | some g => if g ≠ 0 then g else 999
  | none => 999

/-- The `.map` step of `processHistory`: build the point object.  The
enrichment fields are placeholders until the thinning loop sets them.
Runs only on samples that passed the filters, so `h.a` is present and the
`getD 0` defaults are never exercised. -/
def mapSample (h : HistSample) : TrackPoint :=
  match h.a with
  | none =>
    { lat := 0, lng := 0, timestamp := sampleTimestamp h, accuracy := 999
      battery := none, state := h.s, zone := none, zoneId := none
      speed := 0, isMoving := false, isDriving := false }
  | some a =>
    { lat := a.latitude.getD 0, lng := a.longitude.getD 0
      timestamp := sampleTimestamp h, accuracy := sampleAccuracy a
      battery := a.battery_level, state := h.s, zone := none, zoneId := none
      speed := 0, isMoving := false, isDriving := false }

/-- `points.sort((a, b) => new Date(a.timestamp) - new Date(b.timestamp))`:
a stable sort by timestamp (`Array.prototype.sort` is stable), modelled by
`List.mergeSort`, which is also stable. -/
def sortByTimestamp (pts : List TrackPoint) : List TrackPoint :=
  pts.mergeSort fun a b => decide (a.timestamp ≤ b.timestamp)

/-- The enrichment applied to a kept point: zone assignment, and speed /
movement flags computed against the previously kept point (zero / false
for the first kept point). -/
def enrichAt (d : DistFn) (zones : List (String × Zone)) (lastPoint : Option TrackPoint)
    (p : TrackPoint) : TrackPoint :=
  let ze := findZoneEntry d p zones
  let p1 := { p with zone := ze.map (fun kz => kz.2.name), zoneId := ze.map (fun kz => kz.1) }
  match lastPoint with
  | some lp =>
    let s := gSpeed d lp p1
    { p1 with speed := s, isMoving := decide (s > 5), isDriving := decide (s > 25) }
  | none => { p1 with speed := 0, isMoving := false, isDriving := false }

/-- The spatial-thinning loop of `processHistory`: keep a point when there
is no previously kept point or it is more than 15 m away from it, enrich
it, and make it the new `lastPoint`. -/
def thinPoints (d : DistFn) (zones : List (String × Zone)) :
    Option TrackPoint → List TrackPoint → List TrackPoint
  | _, [] => []
  | lastPoint, p :: rest =>
    let keep : Bool :=
      match lastPoint with
      | none => true
      | some lp => decide (pdist d lp p > 15)
    if keep then
      let e := enrichAt d zones lastPoint p
      e :: thinPoints d zones (some e) rest
    else thinPoints d zones lastPoint rest

/-- The aggregate statistics object of `_calculateStats`. -/
structure Stats where
  distance : ℚ
  duration : ℚ
  avgSpeed : ℚ
  maxSpeed : ℚ
  movingTime : ℚ
  stationaryTime : ℚ
  drivingTime : ℚ
deriving DecidableEq

/-- The moving/stationary/driving accumulation loop of `_calculateStats`:
each inter-point interval is classified by the *later* point's flags
(driving also counts as moving). -/
def statsLoop : TrackPoint → ℚ × ℚ × ℚ → List TrackPoint → ℚ × ℚ × ℚ
  | _, acc, [] => acc
  | prev, (mv, sta, dr), p :: rest =>
    let dt := (p.timestamp - prev.timestamp) / 1000
    if p.isDriving then statsLoop p (mv + dt, sta, dr + dt) rest
    else if p.isMoving then statsLoop p (mv + dt, sta, dr) rest
    else statsLoop p (mv, sta + dt, dr) rest

/-- `HistoryAPI._calculateStats`. -/
def calculateStats (d : DistFn) (pts : List TrackPoint) : Stats :=
  match pts with
  | [] => ⟨0, 0, 0, 0, 0, 0, 0⟩
  | [_] => ⟨0, 0, 0, 0, 0, 0, 0⟩
  | p0 :: p1 :: rest =>
    let all := p0 :: p1 :: rest
    let distance := routeDistance d all
    let duration :=
      (((all.getLast?.map (fun p => p.timestamp)).getD 0) - p0.timestamp) / 1000
    let speeds := (all.map (fun p => p.speed)).filter fun s => decide (s > 0) && decide (s < 200)
    let avgSpeed := if speeds.length = 0 then 0 else speeds.sum / (speeds.length : ℚ)
    let maxSpeed :=
      match speeds with
      | [] => 0
      | s :: ss => ss.foldl max s
    let mst := statsLoop p0 (0, 0, 0) (p1 :: rest)
    ⟨distance, duration, avgSpeed, maxSpeed, mst.1, mst.2.1, mst.2.2⟩

/-- A closed trip as pushed by `_detectTrips`. -/
structure Trip where
  startTime : ℚ
  startZone : Option String
  points : List TrackPoint
  maxSpeed : ℚ
  endTime : ℚ
  endZone : Option String
  distance : ℚ
  duration : ℚ
deriving DecidableEq

/-- The `currentTrip` object while a trip is open. -/
structure OpenTrip where
  startTime : ℚ
  startZone : Option String
  points : List TrackPoint
  maxSpeed : ℚ
deriving DecidableEq

/-- `startZone: points[i-1]?.zone || null`: the previous point's zone under
JS truthiness (no previous point, a missing zone, or an empty-string zone
all give `null`). -/
def startZoneOf : Option TrackPoint → Option String
  | none => none
  | some q =>
    match q.zone with
    | some s => if s = "" then none else some s
    | none => none

/-- The loop of `HistoryAPI._detectTrips`, carrying the previous point
(for `points[i-1]`) and the open trip.  A trip still open when the points
run out is dropped (the source never pushes it). -/
def detectTripsGo (d : DistFn) :
    Option TrackPoint → Option OpenTrip → List TrackPoint → List Trip
  | _, _, [] => []
  | prev, none, p :: rest =>
    if p.isMoving then
      detectTripsGo d (some p) (some ⟨p.timestamp, startZoneOf prev, [p], p.speed⟩) rest
    else detectTripsGo d (some p) none rest
  | _, some t, p :: rest =>
    if p.isMoving then
      detectTripsGo d (some p)
        (some ⟨t.startTime, t.startZone, t.points ++ [p],
          if p.speed > t.maxSpeed then p.speed else t.maxSpeed⟩) rest
    else
      let dist := routeDistance d t.points
      let closed : Trip :=
        ⟨t.startTime, t.startZone, t.points, t.maxSpeed, p.timestamp, p.zone,
          dist, (p.timestamp - t.startTime) / 1000⟩
      (if dist > 0.1 then [closed] else []) ++ detectTripsGo d (some p) none rest

/-- `HistoryAPI._detectTrips`. -/
def detectTrips (d : DistFn) (pts : List TrackPoint) : List Trip :=
  detectTripsGo d none none pts

/-- Maximal runs of consecutive `isMoving` points, *including* a run that
extends to the end of the sequence.  This follows the spec's wording of
trip segmentation ("a maximal moving-run"), for comparison with
`detectTrips`. -/
def movingRunsGo (acc : List TrackPoint) : List TrackPoint → List (List TrackPoint)
  | [] =>
    match acc with
    | [] => []
    | _ :: _ => [acc]
  | p :: rest =>
    if p.isMoving then movingRunsGo (acc ++ [p]) rest
    else
      match acc with
      | [] => movingRunsGo [] rest
      | _ :: _ => acc :: movingRunsGo [] rest

def movingRuns (pts : List TrackPoint) : List (List TrackPoint) :=
  movingRunsGo [] pts

/-- Maximal runs of consecutive `isMoving` points that are terminated by a
following non-moving point; a run still open at the end of the sequence is
dropped.  This is the run structure `_detectTrips` actually closes. -/
def closedRunsGo (acc : List TrackPoint) : List TrackPoint → List (List TrackPoint)
  | [] => []
  | p :: rest =>
    if p.isMoving then closedRunsGo (acc ++ [p]) rest
    else
      match acc with
      | [] => closedRunsGo [] rest
      | _ :: _ => acc :: closedRunsGo [] rest

def closedRuns (pts : List TrackPoint) : List (List TrackPoint) :=
  closedRunsGo [] pts

/-- A `zoneTime` table entry: `{ duration, visits, lastVisit }` (duration
in seconds). -/
structure ZoneEntry where
  duration : ℚ
  visits : ℕ
  lastVisit : Option ℚ
deriving DecidableEq

def freshZoneEntry : ZoneEntry := ⟨0, 0, none⟩

/-- `points[i].zone || 'Away'` (JS `||`: a missing or empty-string zone
becomes `'Away'`). -/
def effZone (p : TrackPoint) : String :=
  match p.zone with
  | some s => if s = "" then "Away" else s
  | none => "Away"

/-- The table initialisation of `_calculateZoneTime`: one fresh entry per
zone (walked in `Object.values` order) and a synthetic `'Away'` entry. -/
def initZoneTable (zones : List (String × Zone)) : List (String × ZoneEntry) :=
  aSet (zones.foldl (fun t kz => aSet t kz.2.name freshZoneEntry) []) "Away" freshZoneEntry

/-- One iteration of the `_calculateZoneTime` loop for the later point of a
pair: ensure the entry exists, add the pair's time delta, stamp
`lastVisit`, and count a visit when the zone differs from `lastZone`
(which is `null` before the first pair). -/
def zoneStep (table : List (String × ZoneEntry)) (name : String) (dt ts : ℚ)
    (lastZone : Option String) : List (String × ZoneEntry) :=
  let e := (aGet table name).getD freshZoneEntry
  let e1 : ZoneEntry := ⟨e.duration + dt, e.visits, some ts⟩
  let e2 : ZoneEntry := if some name ≠ lastZone then ⟨e1.duration, e1.visits + 1, e1.lastVisit⟩ else e1
  aSet table name e2

def zoneLoop (prev : TrackPoint) (lastZone : Option String)
    (table : List (String × ZoneEntry)) : List TrackPoint → List (String × ZoneEntry)
  | [] => table
  | p :: rest =>
    zoneLoop p (some (effZone p))
      (zoneStep table (effZone p) ((p.timestamp - prev.timestamp) / 1000) p.timestamp lastZone)
      rest

/-- `HistoryAPI._calculateZoneTime`. -/
def calculateZoneTime (zones : List (String × Zone)) (pts : List TrackPoint) :
    List (String × ZoneEntry) :=
  match pts with
  | [] => initZoneTable zones
  | p :: rest => zoneLoop p none (initZoneTable zones) rest

/-- The result object of `processHistory`. -/
structure HistoryResult where
  points : List TrackPoint
  stats : Stats
  trips : List Trip
  zoneVisits : List (String × ZoneEntry)

/-- `HistoryAPI.processHistory`: filter, map, sort, thin + enrich, then
derive statistics, trips and zone dwell times. -/
def processHistory (d : DistFn) (zones : List (String × Zone))
    (history : List HistSample) : HistoryResult :=
  let pts := (filterStage history).map mapSample
  let sorted := sortByTimestamp pts
  let filtered := thinPoints d zones none sorted
  { points := filtered
    stats := calculateStats d filtered
    trips := detectTrips d filtered
    zoneVisits := calculateZoneTime zones filtered }

/-- The loop of `Location720Card._updateMarkersToTime` for one route:
start from `points[0]` and advance while the scanned point's timestamp is
`≤` the target, stopping at the first later point. -/
def lookupGo (target : ℚ) (cur : TrackPoint) : List TrackPoint → TrackPoint
  | [] => cur
  | p :: rest => if p.timestamp ≤ target then lookupGo target p rest else cur

/-- The playback point lookup (`_updateMarkersToTime`): `none` for an empty
route (the source `return`s before moving the marker), otherwise the point
the marker is moved to. -/
def lookupPointAt (target : ℚ) : List TrackPoint → Option TrackPoint
  | [] => none
  | p0 :: rest => some (lookupGo target p0 (p0 :: rest))

/-! ## Statements written from the spec's words, for comparison -/

/-- The filter-step predicate as claim C3 words it: both coordinates
present, `|lat| ≤ 90`, `|lng| ≤ 180`, and not exactly the point (0,0). -/
def claimedKeep (h : HistSample) : Bool :=
  match h.a with
  | none => false
  | some a =>
    match a.latitude, a.longitude with
    | some x, some y =>
      decide (|x| ≤ 90) && decide (|y| ≤ 180) && !(decide (x = 0) && decide (y = 0))
    | _, _ => false

/-- The corrected filter-step predicate: both coordinates present and
*individually nonzero* (JS truthiness in the first filter and the
`!== 0` conjuncts in the third), and within range. -/
def actualKeep (h : HistSample) : Bool :=
  match h.a with
  | none => false
  | some a =>
    match a.latitude, a.longitude with
    | some x, some y =>
      decide (x ≠ 0) && decide (y ≠ 0) && decide (|x| ≤ 90) && decide (|y| ≤ 180)
    | _, _ => false

/-- The number of visits the zone-time walk attributes to `name`: one for
each walked point whose effective zone is `name` and differs from the
tracked `lastZone` (which starts as `null`, never equal to a string). -/
def visitCount (name : String) : Option String → List String → ℕ
  | _, [] => 0
  | lz, z :: rest =>
    (if some z ≠ lz ∧ z = name then 1 else 0) + visitCount name (some z) rest

/-- Visits recorded for `name` in a zone-time table (0 when absent). -/
def getVisits (table : List (String × ZoneEntry)) (name : String) : ℕ :=
  match aGet table name with
  | some e => e.visits
  | none => 0

/-- Total of the `duration` fields over all entries of a zone-time table. -/
def sumDur (table : List (String × ZoneEntry)) : ℚ :=
  (table.map (fun kv => kv.2.duration)).sum

/-- Elapsed seconds from the first to the last point (0 for an empty or
single-point sequence); timestamps are milliseconds. -/
def elapsedSec (pts : List TrackPoint) : ℚ :=
  (((pts.getLast?.map (fun p => p.timestamp)).getD 0) -
    ((pts.head?.map (fun p => p.timestamp)).getD 0)) / 1000

/-! ## Concrete inputs for closed evaluations -/

/-- A base point; concrete points below are field updates of it. -/
def basePt : TrackPoint :=
  { lat := 0, lng := 0, timestamp := 0, accuracy := 10, battery := none
    state := "not_home", zone := none, zoneId := none, speed := 0
    isMoving := false, isDriving := false }

/-- A moving point at timestamp `ts` and latitude `lat` (speed 30 km/h).
The two instances used below sit one degree of latitude apart, so the
real haversine distance (about 111 km) also far exceeds the 0.1 km trip
threshold that the stand-in constant distance function satisfies. -/
def mvPt (ts lat : ℚ) : TrackPoint :=
  { basePt with timestamp := ts, lat := lat, speed := 30, isMoving := true, isDriving := true }

/-- A stationary point at timestamp `ts` inside zone "Home". -/
def homePt (ts : ℚ) : TrackPoint :=
  { basePt with timestamp := ts, zone := some "Home", zoneId := some "zone.home" }

def homeZone : Zone := ⟨"Home", 0, 0, 100⟩

/-- A raw sample with latitude 0 and a nonzero, in-range longitude. -/
def zeroLatSample : HistSample :=
  ⟨some ⟨some 0, some 50, some 10, none⟩, some 1000, none, "not_home"⟩

/-- Two raw samples that share the timestamp 1000 but sit at different
coordinates. -/
def dupTsSampleA : HistSample :=
  ⟨some ⟨some 10, some 10, some 5, none⟩, some 1000, none, "not_home"⟩

def dupTsSampleB : HistSample :=
  ⟨some ⟨some 11, some 11, some 5, none⟩, some 1000, none, "not_home"⟩

/-- A pending alert for the cancellation evaluations. -/
def witnessPending : PendingAlert := ⟨80, 2, rSlow (some "road"), 0, 30000⟩

/-- A state with a pending alert for "p". -/
def pendingState : CrashState := ⟨[], [("p", witnessPending)], []⟩

/-- The state after `_confirmAndSendAlert` fires for "p" at `Date.now() = 0`:
the cooldown stamp `lastAlert["p"]` is `0`. -/
def confirmedAtZeroState : CrashState := confirmAndSendAlert pendingState "p" 0

/-- A state whose cooldown stamp for "p" is the (nonzero) time 1000. -/
def cooledState : CrashState := ⟨[("p", 1000)], [], []⟩

/-- Crash readings fed while the cooldown of `cooledState` is active. -/
def cooldownEvents : List ReadingEvent :=
  [⟨"p", rFast none, 1000⟩, ⟨"p", rSlow none, 5000⟩]

/-- Simple route points for the playback lookup evaluations. -/
def routePtA : TrackPoint := { basePt with timestamp := 100 }

def routePtB : TrackPoint := { basePt with timestamp := 200, lat := 1 }

/-- The crash-pattern readings replayed 4 s after a confirmation stamped
at time 0. -/
def zeroStampEvents : List ReadingEvent :=
  [⟨"p", rFast none, 0⟩, ⟨"p", rSlow none, 4000⟩]

/-! # Theorems -/

/-! ## Association-list lemmas -/

theorem aGet_aSet_self {α : Type} (m : List (String × α)) (k : String) (v : α) :
    aGet (aSet m k v) k = some v := by
  induction m with
  | nil => simp [aGet, aSet]
  | cons kv rest ih =>
    obtain ⟨k', v'⟩ := kv
    by_cases h : k' = k <;> simp [aGet, aSet, h, ih]

theorem aGet_aSet_ne {α : Type} (m : List (String × α)) {k q : String} (v : α)
    (h : k ≠ q) : aGet (aSet m k v) q = aGet m q := by
  induction m with
  | nil => simp [aGet, aSet, h]
  | cons kv rest ih =>
    obtain ⟨k', v'⟩ := kv
    by_cases h1 : k' = k
    · subst h1
      simp [aGet, aSet, h]
    · by_cases h2 : k' = q <;> simp [aGet, aSet, h1, h2, ih, Ne.symm h]

theorem aGet_aDel_self {α : Type} (m : List (String × α)) (k : String) :
    aGet (aDel m k) k = none := by
  induction m with
  | nil => simp [aGet, aDel]
  | cons kv rest ih =>
    obtain ⟨k', v'⟩ := kv
    by_cases h : k' = k <;> simp_all [aGet, aDel, List.filter]

theorem aGet_aDel_ne {α : Type} (m : List (String × α)) {k q : String}
    (h : k ≠ q) : aGet (aDel m k) q = aGet m q := by
  induction m with
  | nil => simp [aGet, aDel]
  | cons kv rest ih =>
    obtain ⟨k', v'⟩ := kv
    by_cases h1 : k' = k
    · subst h1
      simp_all [aGet, aDel, List.filter, Ne.symm h]
    · by_cases h2 : k' = q <;> simp_all [aGet, aDel, List.filter]

/-! ## Crash-detector frame and congruence lemmas -/

theorem checkForCrash_speedHistory (cfg : CrashConfig) (st : CrashState)
    (person : String) (now : ℚ) :
    (checkForCrash cfg st person now).speedHistory = st.speedHistory := by
  unfold checkForCrash
  cases crashDecision cfg ((aGet st.speedHistory person).getD [])
      (aGet st.lastAlert person) (aGet st.pendingAlerts person) now with
  | none => rfl
  | some v => obtain ⟨sb, sa, latest⟩ := v; rfl

theorem checkForCrash_lastAlert (cfg : CrashConfig) (st : CrashState)
    (person : String) (now : ℚ) :
    (checkForCrash cfg st person now).lastAlert = st.lastAlert := by
  unfold checkForCrash
  cases crashDecision cfg ((aGet st.speedHistory person).getD [])
      (aGet st.lastAlert person) (aGet st.pendingAlerts person) now with
  | none => rfl
  | some v => obtain ⟨sb, sa, latest⟩ := v; rfl

theorem checkForCrash_pending_ne (cfg : CrashConfig) (st : CrashState)
    {person q : String} (now : ℚ) (h : person ≠ q) :
    aGet (checkForCrash cfg st person now).pendingAlerts q =
      aGet st.pendingAlerts q := by
  unfold checkForCrash
  cases crashDecision cfg ((aGet st.speedHistory person).getD [])
      (aGet st.lastAlert person) (aGet st.pendingAlerts person) now with
  | none => rfl
  | some v =>
    obtain ⟨sb, sa, latest⟩ := v
    simp [triggerPendingAlert, aGet_aSet_ne _ _ h]

theorem addReading_lastAlert (cfg : CrashConfig) (st : CrashState)
    (person : String) (r : CrashReading) (now : ℚ) :
    (addReading cfg st person r now).lastAlert = st.lastAlert := by
  unfold addReading
  cases hcfg : cfg.enabled with
  | false => simp
  | true =>
    simp only [hcfg, Bool.not_true, Bool.false_eq_true, if_false]
    cases hg : aGet st.speedHistory person with
    | none =>
      by_cases hacc : r.accuracy > cfg.min_gps_accuracy <;>
        simp [hacc, checkForCrash_lastAlert]
    | some l =>
      by_cases hacc : r.accuracy > cfg.min_gps_accuracy <;>
        simp [hacc, checkForCrash_lastAlert]

theorem addReading_pending_ne (cfg : CrashConfig) (st : CrashState)
    {person q : String} (r : CrashReading) (now : ℚ) (h : person ≠ q) :
    aGet (addReading cfg st person r now).pendingAlerts q =
      aGet st.pendingAlerts q := by
  unfold addReading
  cases hcfg : cfg.enabled with
  | false => simp
  | true =>
    simp only [hcfg, Bool.not_true, Bool.false_eq_true, if_false]
    cases hg : aGet st.speedHistory person with
    | none =>
      by_cases hacc : r.accuracy > cfg.min_gps_accuracy <;>
        simp [hacc, checkForCrash_pending_ne _ _ _ h]
    | some l =>
      by_cases hacc : r.accuracy > cfg.min_gps_accuracy <;>
        simp [hacc, checkForCrash_pending_ne _ _ _ h]

theorem addReading_speedHistory_ne (cfg : CrashConfig) (st : CrashState)
    {person q : String} (r : CrashReading) (now : ℚ) (h : person ≠ q) :
    aGet (addReading cfg st person r now).speedHistory q =
      aGet st.speedHistory q := by
  unfold addReading
  cases hcfg : cfg.enabled with
  | false => simp
  | true =>
    simp only [hcfg, Bool.not_true, Bool.false_eq_true, if_false]
    cases hg : aGet st.speedHistory person with
    | none =>
      by_cases hacc : r.accuracy > cfg.min_gps_accuracy <;>
        simp [hacc, checkForCrash_speedHistory, aGet_aSet_ne _ _ h]
    | some l =>
      by_cases hacc : r.accuracy > cfg.min_gps_accuracy <;>
        simp [hacc, checkForCrash_speedHistory, aGet_aSet_ne _ _ h]

/-- A reading for one person never touches another person's entries. -/
theorem addReading_frameAt (cfg : CrashConfig) (st : CrashState)
    {person q : String} (r : CrashReading) (now : ℚ) (h : person ≠ q) :
    agreeAt q (addReading cfg st person r now) st :=
  ⟨addReading_speedHistory_ne cfg st r now h,
   addReading_pending_ne cfg st r now h,
   by rw [addReading_lastAlert]⟩

/-- With a nonzero cooldown stamp inside the cooldown window, the crash
decision is always `none`. -/
theorem crashDecision_cooldown (cfg : CrashConfig) (history : List CrashReading)
    (pendingVal : Option PendingAlert) (now t0 : ℚ) (h0 : t0 ≠ 0)
    (hcd : now - t0 < cfg.alert_cooldown * 60000) :
    crashDecision cfg history (some t0) pendingVal now = none := by
  unfold crashDecision
  split
  · rfl
  · split
    · rfl
    · simp [h0, hcd]

theorem checkForCrash_suppressed (cfg : CrashConfig) (st : CrashState)
    (p : String) (now t0 : ℚ) (hla : aGet st.lastAlert p = some t0)
    (h0 : t0 ≠ 0) (hcd : now - t0 < cfg.alert_cooldown * 60000) :
    checkForCrash cfg st p now = st := by
  unfold checkForCrash
  rw [hla, crashDecision_cooldown cfg _ _ now t0 h0 hcd]

/-- One reading during an active (nonzero) cooldown cannot create a
pending alert for the cooled-down person, whoever the reading is for. -/
theorem addReading_cooldown_step (cfg : CrashConfig) (st : CrashState)
    (p person : String) (r : CrashReading) (now t0 : ℚ)
    (hla : aGet st.lastAlert p = some t0) (h0 : t0 ≠ 0)
    (hpend : aGet st.pendingAlerts p = none)
    (hcd : person = p → now - t0 < cfg.alert_cooldown * 60000) :
    aGet (addReading cfg st person r now).pendingAlerts p = none := by
  by_cases hq : person = p
  · subst hq
    unfold addReading
    cases hcfg : cfg.enabled with
    | false => simpa using hpend
    | true =>
      simp only [hcfg, Bool.not_true, Bool.false_eq_true, if_false]
      cases hg : aGet st.speedHistory person with
      | none =>
        by_cases hacc : r.accuracy > cfg.min_gps_accuracy
        · simpa [hacc] using hpend
        · simp only [hacc, if_false]
          rw [checkForCrash_suppressed _ _ _ now t0 (by simpa using hla) h0 (hcd rfl)]
          simpa using hpend
      | some l =>
        by_cases hacc : r.accuracy > cfg.min_gps_accuracy
        · simpa [hacc] using hpend
        · simp only [hacc, if_false]
          rw [checkForCrash_suppressed _ _ _ now t0 (by simpa using hla) h0 (hcd rfl)]
          simpa using hpend
  · rw [addReading_pending_ne _ _ _ _ hq]
    exact hpend

/-- `_checkForCrash` for person `q` reads and writes only `q`'s entries:
two states agreeing at `q` still agree at `q` afterwards. -/
theorem checkForCrash_congrAt (cfg : CrashConfig) (q : String) (now : ℚ)
    (s1 s2 : CrashState) (h : agreeAt q s1 s2) :
    agreeAt q (checkForCrash cfg s1 q now) (checkForCrash cfg s2 q now) := by
  obtain ⟨hh, hp, hl⟩ := h
  unfold checkForCrash
  rw [hh, hp, hl]
  cases crashDecision cfg ((aGet s2.speedHistory q).getD [])
      (aGet s2.lastAlert q) (aGet s2.pendingAlerts q) now with
  | none => exact ⟨hh, hp, hl⟩
  | some v =>
    obtain ⟨sb, sa, latest⟩ := v
    exact ⟨hh, by simp [triggerPendingAlert, aGet_aSet_self], hl⟩

/-- `addReading` for person `q` reads and writes only `q`'s entries. -/
theorem addReading_congrAt (cfg : CrashConfig) (q : String) (r : CrashReading)
    (now : ℚ) (s1 s2 : CrashState) (h : agreeAt q s1 s2) :
    agreeAt q (addReading cfg s1 q r now) (addReading cfg s2 q r now) := by
  obtain ⟨hh, hp, hl⟩ := h
  unfold addReading
  cases hcfg : cfg.enabled with
  | false => exact ⟨hh, hp, hl⟩
  | true =>
    simp only [hcfg, Bool.not_true, Bool.false_eq_true, if_false]
    rw [hh]
    cases hg : aGet s2.speedHistory q with
    | none =>
      by_cases hacc : r.accuracy > cfg.min_gps_accuracy
      · simp only [hacc, if_true]
        exact ⟨by simp [aGet_aSet_self], hp, hl⟩
      · simp only [hacc, if_false]
        apply checkForCrash_congrAt
        exact ⟨by simp [aGet_aSet_self], hp, hl⟩
    | some l =>
      by_cases hacc : r.accuracy > cfg.min_gps_accuracy
      · simp only [hacc, if_true]
        exact ⟨hh, hp, hl⟩
      · simp only [hacc, if_false]
        apply checkForCrash_congrAt
        exact ⟨by simp [aGet_aSet_self, hh], hp, hl⟩

/-- Replaying the same reading events from two states that agree at `q`
keeps the states agreeing at `q`. -/
theorem runReadings_congrAt (cfg : CrashConfig) (q : String)
    (events : List ReadingEvent) (s1 s2 : CrashState) (h : agreeAt q s1 s2) :
    agreeAt q (runReadings cfg s1 events) (runReadings cfg s2 events) := by
  induction events generalizing s1 s2 with
  | nil => exact h
  | cons e rest ih =>
    have hstep : agreeAt q (addReading cfg s1 e.person e.reading e.now)
        (addReading cfg s2 e.person e.reading e.now) := by
      by_cases hq : e.person = q
      · subst hq
        exact addReading_congrAt cfg _ e.reading e.now s1 s2 h
      · have f1 := addReading_frameAt cfg s1 e.reading e.now hq
        have f2 := addReading_frameAt cfg s2 e.reading e.now hq
        exact ⟨f1.1.trans (h.1.trans f2.1.symm),
               f1.2.1.trans (h.2.1.trans f2.2.1.symm),
               f1.2.2.trans (h.2.2.trans f2.2.2.symm)⟩
    exact ih _ _ hstep

theorem runReadings_lastAlert (cfg : CrashConfig) (st : CrashState)
    (events : List ReadingEvent) :
    (runReadings cfg st events).lastAlert = st.lastAlert := by
  induction events generalizing st with
  | nil => rfl
  | cons e rest ih => exact (ih _).trans (addReading_lastAlert cfg st e.person e.reading e.now)

theorem runReadings_cooldown_pending (cfg : CrashConfig) (st : CrashState)
    (p : String) (t0 : ℚ) (events : List ReadingEvent)
    (h0 : t0 ≠ 0) (hla : aGet st.lastAlert p = some t0)
    (hpend : aGet st.pendingAlerts p = none)
    (hcd : ∀ e ∈ events, e.person = p → e.now - t0 < cfg.alert_cooldown * 60000) :
    aGet (runReadings cfg st events).pendingAlerts p = none := by
  induction events generalizing st with
  | nil => exact hpend
  | cons e rest ih =>
    refine ih (addReading cfg st e.person e.reading e.now) ?_ ?_ ?_
    · rw [addReading_lastAlert]; exact hla
    · exact addReading_cooldown_step cfg st p e.person e.reading e.now t0 hla h0 hpend
        (fun hq => hcd e (List.mem_cons_self e rest) hq)
    · exact fun e' he' hq => hcd e' (List.mem_cons_of_mem e he') hq

/-- C5 (amended): a stamped, *nonzero* cooldown time `t0` for person `p`
suppresses every new pending alert for `p` over any sequence of
`addReading` calls whose `p`-calls happen before `alert_cooldown` minutes
after `t0`; `lastAlert` is untouched by `addReading`, and every other
person's entries evolve exactly as they would if `p`'s cooldown stamp
were absent altogether. -/
theorem cooldown_suppresses_retrigger (cfg : CrashConfig) (st : CrashState)
    (p : String) (t0 : ℚ) (events : List ReadingEvent)
    (h0 : t0 ≠ 0) (hla : aGet st.lastAlert p = some t0)
    (hpend : aGet st.pendingAlerts p = none)
    (hcd : ∀ e ∈ events, e.person = p → e.now - t0 < cfg.alert_cooldown * 60000) :
    aGet (runReadings cfg st events).pendingAlerts p = none ∧
    aGet (runReadings cfg st events).lastAlert p = some t0 ∧
    ∀ q, q ≠ p →
      agreeAt q (runReadings cfg st events)
        (runReadings cfg ⟨aDel st.lastAlert p, st.pendingAlerts, st.speedHistory⟩ events) := by
  refine ⟨runReadings_cooldown_pending cfg st p t0 events h0 hla hpend hcd, ?_, ?_⟩
  · rw [runReadings_lastAlert]; exact hla
  · intro q hq
    exact runReadings_congrAt cfg q events _ _
      ⟨rfl, rfl, (aGet_aDel_ne st.lastAlert (fun h => hq h.symm)).symm⟩

/-- Witness for C5 at a concrete cooled-down state and reading sequence. -/
theorem cooldown_suppresses_retrigger_witness :
    ((1000 : ℚ) ≠ 0 ∧ aGet cooledState.lastAlert "p" = some 1000 ∧
      aGet cooledState.pendingAlerts "p" = none ∧
      ∀ e ∈ cooldownEvents, e.person = "p" →
        e.now - 1000 < enabledCrashConfig.alert_cooldown * 60000) ∧
    aGet (runReadings enabledCrashConfig cooledState cooldownEvents).pendingAlerts "p" = none := by
  have hyp : (1000 : ℚ) ≠ 0 ∧ aGet cooledState.lastAlert "p" = some 1000 ∧
      aGet cooledState.pendingAlerts "p" = none ∧
      ∀ e ∈ cooldownEvents, e.person = "p" →
        e.now - 1000 < enabledCrashConfig.alert_cooldown * 60000 := by
    refine ⟨by norm_num, by rfl, by rfl, ?_⟩
    intro e he _
    simp [cooldownEvents] at he
    rcases he with h | h <;> subst h <;>
      norm_num [enabledCrashConfig, defaultCrashConfig]
  exact ⟨hyp, (cooldown_suppresses_retrigger enabledCrashConfig cooledState "p" 1000
    cooldownEvents hyp.1 hyp.2.1 hyp.2.2.1 hyp.2.2.2).1⟩

/-- C5 counterexample: the claim as stated fails when the alert was
confirmed at time 0.  `_confirmAndSendAlert` firing at `Date.now() = 0`
stamps `lastAlert = 0`, which is falsy in JS, so the cooldown check is
skipped and the crash pattern re-triggers 4 s later, well inside the
5-minute default cooldown. -/
theorem cooldown_zero_stamp_cex :
    aGet confirmedAtZeroState.lastAlert "p" = some 0 ∧
    aGet confirmedAtZeroState.pendingAlerts "p" = none ∧
    (4000 : ℚ) - 0 < enabledCrashConfig.alert_cooldown * 60000 ∧
    (aGet (runReadings enabledCrashConfig confirmedAtZeroState
        zeroStampEvents).pendingAlerts "p").isSome = true := by
  refine ⟨by rfl, by rfl, by norm_num [enabledCrashConfig, defaultCrashConfig], ?_⟩
  norm_num [runReadings, addReading, checkForCrash, crashDecision, triggerPendingAlert,
    aGet, aSet, aDel, confirmedAtZeroState, confirmAndSendAlert, pendingState,
    witnessPending, zeroStampEvents, enabledCrashConfig, defaultCrashConfig,
    rFast, rSlow, wasRecentlyDriving, isZoneEntry, zoneTruthy, strIncludes, strLower,
    subTest, startsAt, List.filter]

/-- C2: with defaults and `enabled = true`, the two-reading crash pattern
(80 km/h at t = 0 s, 2 km/h at t = 4 s, accuracy 10, activity "driving",
unchanged zone) creates a pending alert for the person, whatever the
shared zone value is. -/
theorem crash_pattern_creates_pending (z : Option String) :
    (aGet (addReading enabledCrashConfig
        (addReading enabledCrashConfig emptyCrashState "p" (rFast z) 0)
        "p" (rSlow z) 4000).pendingAlerts "p").isSome = true := by
  have hz : (!zoneTruthy z && zoneTruthy z) = false := by
    cases zoneTruthy z <;> rfl
  norm_num [addReading, checkForCrash, crashDecision, triggerPendingAlert, aGet, aSet,
    emptyCrashState, enabledCrashConfig, defaultCrashConfig, rFast, rSlow,
    wasRecentlyDriving, isZoneEntry, zoneTruthy, strIncludes, strLower, subTest, startsAt,
    List.filter, hz]

/-- C6: `cancelPendingAlert` returns `true` and discards the pending alert
exactly when one exists; the discarded timer callback
(`_confirmAndSendAlert`) then finds nothing and stamps no cooldown, and a
repeated cancel is a no-op returning `false`; with no pending alert the
call returns `false` and leaves the state untouched. -/
theorem cancelPendingAlert_spec (st : CrashState) (person : String) (now : ℚ) :
    ((cancelPendingAlert st person).1 = true ↔
      (aGet st.pendingAlerts person).isSome = true) ∧
    ((aGet st.pendingAlerts person).isSome = true →
      (cancelPendingAlert st person).2 =
        { st with pendingAlerts := aDel st.pendingAlerts person } ∧
      aGet (cancelPendingAlert st person).2.pendingAlerts person = none ∧
      confirmAndSendAlert (cancelPendingAlert st person).2 person now =
        (cancelPendingAlert st person).2 ∧
      cancelPendingAlert (cancelPendingAlert st person).2 person =
        (false, (cancelPendingAlert st person).2)) ∧
    (aGet st.pendingAlerts person = none → cancelPendingAlert st person = (false, st)) := by
  cases h : aGet st.pendingAlerts person with
  | none => simp [cancelPendingAlert, h]
  | some pa =>
    refine ⟨by simp [cancelPendingAlert, h], fun _ => ?_, by simp [h]⟩
    refine ⟨by simp [cancelPendingAlert, h], ?_, ?_, ?_⟩
    · simp [cancelPendingAlert, h, aGet_aDel_self]
    · simp [cancelPendingAlert, h, confirmAndSendAlert, aGet_aDel_self]
    · simp [cancelPendingAlert, h, aGet_aDel_self]

/-! ## C3: the history filter step -/

theorem filters_pointwise (h : HistSample) :
    ((sampleNonzero h && sampleInRange h) && sampleHasCoords h) = actualKeep h := by
  cases ha : h.a with
  | none => simp [sampleNonzero, sampleInRange, sampleHasCoords, actualKeep, ha]
  | some a =>
    cases hx : a.latitude with
    | none => simp [sampleNonzero, sampleInRange, sampleHasCoords, actualKeep, ha, hx]
    | some x =>
      cases hy : a.longitude with
      | none => simp [sampleNonzero, sampleInRange, sampleHasCoords, actualKeep, ha, hx, hy]
      | some y =>
        by_cases h1 : x = 0 <;> by_cases h2 : y = 0 <;>
          by_cases h3 : |x| ≤ 90 <;> by_cases h4 : |y| ≤ 180 <;>
          simp [sampleNonzero, sampleInRange, sampleHasCoords, actualKeep,
            ha, hx, hy, h1, h2, h3, h4]

/-- C3 (amended): the filter step keeps exactly the samples with both
coordinates present, each coordinate individually nonzero, `|lat| ≤ 90`
and `|lng| ≤ 180`; in particular a sample with one zero coordinate is
dropped even when the other coordinate is nonzero and in range. -/
theorem filterStage_keeps_exactly (history : List HistSample) :
    filterStage history = history.filter actualKeep := by
  unfold filterStage
  rw [List.filter_filter, List.filter_filter]
  exact List.filter_congr fun a _ => filters_pointwise a

/-- C3 counterexample: the sample with latitude 0 and longitude 50
satisfies the claim's keep-predicate (present, in range, not (0,0)) but
the code's filter chain drops it: `h.a.latitude` is falsy at 0 and the
third filter requires each coordinate to be nonzero. -/
theorem filter_zero_lat_cex :
    claimedKeep zeroLatSample = true ∧ filterStage [zeroLatSample] = [] := by
  constructor
  · norm_num [claimedKeep, zeroLatSample]
  · norm_num [filterStage, zeroLatSample, sampleHasCoords, sampleInRange,
      sampleNonzero, List.filter]

/-! ## C4: ordering and spatial separation of the processed points -/

theorem coreOf_enrichAt (d : DistFn) (zones : List (String × Zone))
    (lastPoint : Option TrackPoint) (p : TrackPoint) :
    coreOf (enrichAt d zones lastPoint p) = coreOf p := by
  cases lastPoint <;> rfl

theorem pdist_enrichAt_right (d : DistFn) (zones : List (String × Zone))
    (lastPoint : Option TrackPoint) (a p : TrackPoint) :
    pdist d a (enrichAt d zones lastPoint p) = pdist d a p := by
  cases lastPoint <;> rfl

theorem thinPoints_core_sublist (d : DistFn) (zones : List (String × Zone)) :
    ∀ (l : List TrackPoint) (lastPoint : Option TrackPoint),
      ((thinPoints d zones lastPoint l).map coreOf).Sublist (l.map coreOf) := by
  intro l
  induction l with
  | nil => intro lastPoint; simp [thinPoints]
  | cons p rest ih =>
    intro lastPoint
    cases lastPoint with
    | none =>
      simp only [thinPoints, List.map_cons, coreOf_enrichAt]
      exact List.Sublist.cons₂ _ (ih _)
    | some lp =>
      by_cases hk : pdist d lp p > 15
      · simp only [thinPoints, List.map_cons]
        rw [if_pos (by simpa using hk)]
        simp only [List.map_cons, coreOf_enrichAt]
        exact List.Sublist.cons₂ _ (ih _)
      · simp only [thinPoints, List.map_cons]
        rw [if_neg (by simpa using hk)]
        exact (ih _).cons _

theorem thinPoints_chain_some (d : DistFn) (zones : List (String × Zone)) :
    ∀ (l : List TrackPoint) (lp : TrackPoint),
      List.Chain (fun a b => pdist d a b > 15) lp (thinPoints d zones (some lp) l) := by
  intro l
  induction l with
  | nil => intro lp; simp [thinPoints]
  | cons p rest ih =>
    intro lp
    by_cases hk : pdist d lp p > 15
    · simp only [thinPoints]
      rw [if_pos (by simpa using hk)]
      exact List.Chain.cons (by rw [pdist_enrichAt_right]; exact hk) (ih _)
    · simp only [thinPoints]
      rw [if_neg (by simpa using hk)]
      exact ih _

theorem thinPoints_chain_none (d : DistFn) (zones : List (String × Zone))
    (l : List TrackPoint) :
    List.Chain' (fun a b => pdist d a b > 15) (thinPoints d zones none l) := by
  cases l with
  | nil => simp [thinPoints]
  | cons p rest =>
    simp only [thinPoints, if_true]
    exact thinPoints_chain_some d zones rest (enrichAt d zones none p)

theorem thinPoints_head_none (d : DistFn) (zones : List (String × Zone))
    (l : List TrackPoint) :
    (thinPoints d zones none l).head?.map coreOf = l.head?.map coreOf := by
  cases l with
  | nil => rfl
  | cons p rest => simp [thinPoints, coreOf_enrichAt]

theorem sortByTimestamp_sorted (pts : List TrackPoint) :
    List.Pairwise (fun a b => a.timestamp ≤ b.timestamp) (sortByTimestamp pts) := by
  have h := @List.sorted_mergeSort TrackPoint
    (fun a b : TrackPoint => decide (a.timestamp ≤ b.timestamp))
    (fun a b c hab hbc => by
      simp only [decide_eq_true_eq] at *
      exact le_trans hab hbc)
    (fun a b => by
      simp only [Bool.or_eq_true, decide_eq_true_eq]
      exact le_total a.timestamp b.timestamp)
    pts
  exact h.imp (by simp only [decide_eq_true_eq]; exact fun h => h)

/-- C4 (amended): for every raw sample list, distance function and zone
set, the output `points` sequence is *nondecreasing* in timestamp, every
point after the first lies more than 15 m (by the distance function) from
its predecessor, and the first surviving point of the sorted sequence is
always kept (same sample-identity fields).  Strict timestamp increase
fails in general: samples with equal timestamps all survive thinning when
they are far enough apart. -/
theorem processHistory_points_spec (d : DistFn) (zones : List (String × Zone))
    (history : List HistSample) :
    List.Pairwise (fun a b : TrackPoint => a.timestamp ≤ b.timestamp)
      (processHistory d zones history).points ∧
    List.Chain' (fun a b => pdist d a b > 15) (processHistory d zones history).points ∧
    (processHistory d zones history).points.head?.map coreOf =
      (sortByTimestamp ((filterStage history).map mapSample)).head?.map coreOf := by
  have hpts : (processHistory d zones history).points =
      thinPoints d zones none (sortByTimestamp ((filterStage history).map mapSample)) := rfl
  refine ⟨?_, ?_, ?_⟩
  · rw [hpts]
    have hs : List.Pairwise
        (fun a b : TrackPoint => a.timestamp ≤ b.timestamp)
        (sortByTimestamp ((filterStage history).map mapSample)) :=
      sortByTimestamp_sorted _
    have hs' : List.Pairwise
        (fun c1 c2 : ℚ × ℚ × ℚ × ℚ × Option ℚ × String => c1.2.2.1 ≤ c2.2.2.1)
        ((sortByTimestamp ((filterStage history).map mapSample)).map coreOf) :=
      List.pairwise_map.mpr hs
    have hthin := List.Pairwise.sublist (thinPoints_core_sublist d zones
      (sortByTimestamp ((filterStage history).map mapSample)) none) hs'
    exact (@List.pairwise_map _ _ coreOf _ _).mp hthin
  · rw [hpts]
    exact thinPoints_chain_none d zones _
  · rw [hpts]
    exact thinPoints_head_none d zones _

/-- C4 counterexample: two in-range samples sharing the timestamp 1000,
processed with a distance function that always returns 100 m (the real
haversine distance of the two coordinates, hundreds of kilometres, also
exceeds 15 m), both survive, so the output timestamps are [1000, 1000] —
not strictly increasing. -/
theorem processHistory_strict_order_cex :
    ¬ List.Pairwise (fun a b : TrackPoint => a.timestamp < b.timestamp)
      (processHistory (constDist 100) [] [dupTsSampleA, dupTsSampleB]).points := by
  have hpts : ((processHistory (constDist 100) [] [dupTsSampleA, dupTsSampleB]).points.map
      (fun p => p.timestamp)) = [1000, 1000] := by
    norm_num [processHistory, filterStage, sampleHasCoords, sampleInRange, sampleNonzero,
      mapSample, sampleTimestamp, sampleAccuracy, sortByTimestamp, List.mergeSort, List.merge,
      thinPoints, enrichAt, findZoneEntry, pdist, constDist, gSpeed,
      dupTsSampleA, dupTsSampleB, List.filter]
  intro hp
  have h2 : List.Pairwise (fun a b : ℚ => a < b)
      ((processHistory (constDist 100) [] [dupTsSampleA, dupTsSampleB]).points.map
        (fun p => p.timestamp)) := List.pairwise_map.mpr hp
  rw [hpts] at h2
  simp at h2

/-! ## C1: trip segmentation -/

/-- Joint characterisation of the `_detectTrips` loop: from a closed state
it emits exactly the distance-filtered closed runs, and from an open state
whose accumulated points are nonempty it emits the closed runs with that
accumulator. -/
theorem detectTripsGo_runs (d : DistFn) :
    ∀ l : List TrackPoint,
      (∀ prev, (detectTripsGo d prev none l).map (fun t => t.points) =
        (closedRunsGo [] l).filter (fun r => decide (routeDistance d r > 0.1))) ∧
      (∀ prev t, t.points ≠ [] →
        (detectTripsGo d prev (some t) l).map (fun t => t.points) =
          (closedRunsGo t.points l).filter (fun r => decide (routeDistance d r > 0.1))) := by
  intro l
  induction l with
  | nil =>
    constructor
    · intro prev; rfl
    · intro prev t ht; rfl
  | cons p rest ih =>
    constructor
    · intro prev
      by_cases hm : p.isMoving = true
      · simp only [detectTripsGo, closedRunsGo, hm, if_true, List.nil_append]
        exact ih.2 (some p) ⟨p.timestamp, startZoneOf prev, [p], p.speed⟩ (by simp)
      · have hmf : p.isMoving = false := by simpa using hm
        simp only [detectTripsGo, closedRunsGo, hmf, Bool.false_eq_true, if_false]
        exact ih.1 (some p)
    · intro prev t ht
      by_cases hm : p.isMoving = true
      · simp only [detectTripsGo, closedRunsGo, hm, if_true]
        exact ih.2 (some p) _ (by simp)
      · have hmf : p.isMoving = false := by simpa using hm
        obtain ⟨a, as, hacc⟩ := List.exists_cons_of_ne_nil ht
        simp only [detectTripsGo, closedRunsGo, hmf, Bool.false_eq_true, if_false, hacc]
        by_cases hd : routeDistance d (a :: as) > 0.1
        · rw [if_pos hd, List.filter_cons_of_pos (by simpa using hd)]
          simp only [List.map_append, List.map_cons, List.map_nil, List.singleton_append]
          rw [ih.1 (some p)]
        · rw [if_neg hd, List.filter_cons_of_neg (by simpa using hd), List.nil_append]
          exact ih.1 (some p)

theorem flatten_sublist_of_sublist {α : Type} {l1 l2 : List (List α)}
    (h : l1.Sublist l2) : l1.flatten.Sublist l2.flatten := by
  induction h with
  | slnil => exact List.Sublist.refl _
  | cons a _ ih =>
    rw [List.flatten_cons]
    exact ih.trans (List.sublist_append_right a _)
  | cons₂ a _ ih =>
    rw [List.flatten_cons, List.flatten_cons]
    exact List.Sublist.append_left ih a

theorem closedRunsGo_flatten_sublist :
    ∀ (l acc : List TrackPoint), ((closedRunsGo acc l).flatten).Sublist (acc ++ l) := by
  intro l
  induction l with
  | nil => intro acc; simp [closedRunsGo]
  | cons p rest ih =>
    intro acc
    by_cases hm : p.isMoving = true
    · simp only [closedRunsGo, hm, if_true]
      have := ih (acc ++ [p])
      rwa [List.append_assoc, List.singleton_append] at this
    · have hmf : p.isMoving = false := by simpa using hm
      simp only [closedRunsGo, hmf, Bool.false_eq_true, if_false]
      cases acc with
      | nil =>
        have h0 : ((closedRunsGo [] rest).flatten).Sublist rest := by
          simpa using ih ([] : List TrackPoint)
        simpa using h0.trans (List.sublist_cons_self p rest)
      | cons a as =>
        simp only [List.flatten_cons, List.cons_append]
        refine List.Sublist.cons₂ a ?_
        have h0 : ((closedRunsGo [] rest).flatten).Sublist rest := by
          simpa using ih ([] : List TrackPoint)
        exact List.Sublist.append_left (h0.trans (List.sublist_cons_self p rest)) as

/-- C1 (amended): `_detectTrips` emits a trip exactly for the maximal
moving runs that are *terminated by a following non-moving point* and
whose route distance exceeds 0.1 km (a run that extends to the end of the
sequence is discarded), and the emitted trips' point lists, concatenated,
form a subsequence of the input — so their point ranges never overlap. -/
theorem detectTrips_closed_runs (d : DistFn) (pts : List TrackPoint) :
    (detectTrips d pts).map (fun t => t.points) =
      (closedRuns pts).filter (fun r => decide (routeDistance d r > 0.1)) ∧
    (((detectTrips d pts).map (fun t => t.points)).flatten).Sublist pts := by
  have h : (detectTrips d pts).map (fun t => t.points) =
      (closedRuns pts).filter (fun r => decide (routeDistance d r > 0.1)) :=
    (detectTripsGo_runs d pts).1 none
  refine ⟨h, ?_⟩
  rw [h]
  have h1 : ((closedRuns pts).filter
      (fun r => decide (routeDistance d r > 0.1))).Sublist (closedRuns pts) :=
    List.filter_sublist _
  exact (flatten_sublist_of_sublist h1).trans
    (by simpa using closedRunsGo_flatten_sublist pts [])

/-- C1 counterexample: a sequence that is one maximal moving run of
distance 0.4 km (under the constant 200 m distance function) extending to
the end of the points: the claim requires a trip for it, but
`_detectTrips` never pushes a trip that is still open when the loop ends. -/
theorem detectTrips_trailing_run_cex :
    movingRuns [mvPt 0 0, mvPt 60000 1] = [[mvPt 0 0, mvPt 60000 1]] ∧
    routeDistance (constDist 200) [mvPt 0 0, mvPt 60000 1] > 0.1 ∧
    detectTrips (constDist 200) [mvPt 0 0, mvPt 60000 1] = [] := by
  refine ⟨by norm_num [movingRuns, movingRunsGo, mvPt, basePt], ?_, ?_⟩
  · norm_num [routeDistance, routeDistanceM, pdist, constDist]
  · norm_num [detectTrips, detectTripsGo, mvPt, basePt]

/-! ## C7 and C8: zone-time aggregation -/

theorem aGet_mem {α : Type} (m : List (String × α)) (k : String) (v : α)
    (h : aGet m k = some v) : (k, v) ∈ m := by
  induction m with
  | nil => simp [aGet] at h
  | cons kv rest ih =>
    obtain ⟨k', v'⟩ := kv
    by_cases hk : k' = k
    · subst hk
      simp [aGet] at h
      simp [h]
    · simp only [aGet, hk, if_false] at h
      exact List.mem_cons_of_mem _ (ih h)

/-- Every entry of a table is the fresh entry. -/
def allFresh (m : List (String × ZoneEntry)) : Prop :=
  ∀ kv ∈ m, kv.2 = freshZoneEntry

theorem allFresh_aSet (m : List (String × ZoneEntry)) (k : String)
    (h : allFresh m) : allFresh (aSet m k freshZoneEntry) := by
  induction m with
  | nil => intro kv hkv; simp [aSet] at hkv; simp [hkv]
  | cons kv0 rest ih =>
    obtain ⟨k', v'⟩ := kv0
    intro kv hkv
    by_cases hk : k' = k
    · simp only [aSet, hk, if_true] at hkv
      rcases List.mem_cons.mp hkv with h1 | h1
      · simp [h1]
      · exact h kv (List.mem_cons_of_mem _ h1)
    · simp only [aSet, hk, if_false] at hkv
      rcases List.mem_cons.mp hkv with h1 | h1
      · exact h kv (h1 ▸ List.mem_cons_self _ _)
      · exact ih (fun x hx => h x (List.mem_cons_of_mem _ hx)) kv h1

theorem allFresh_foldl (zs : List (String × Zone)) :
    ∀ m, allFresh m →
      allFresh (zs.foldl (fun t kz => aSet t kz.2.name freshZoneEntry) m) := by
  induction zs with
  | nil => intro m h; exact h
  | cons z rest ih => intro m h; exact ih _ (allFresh_aSet m z.2.name h)

theorem allFresh_initZoneTable (zones : List (String × Zone)) :
    allFresh (initZoneTable zones) := by
  unfold initZoneTable
  exact allFresh_aSet _ _ (allFresh_foldl zones [] (by intro kv h; simp at h))

theorem sumDur_allFresh (m : List (String × ZoneEntry)) (h : allFresh m) :
    sumDur m = 0 := by
  induction m with
  | nil => rfl
  | cons kv rest ih =>
    have h0 : kv.2 = freshZoneEntry := h kv (List.mem_cons_self _ _)
    have h1 : sumDur rest = 0 := ih (fun x hx => h x (List.mem_cons_of_mem _ hx))
    simp only [sumDur, List.map_cons, List.sum_cons] at h1 ⊢
    rw [h0, h1]
    simp [freshZoneEntry]

theorem getVisits_allFresh (m : List (String × ZoneEntry)) (n : String)
    (h : allFresh m) : getVisits m n = 0 := by
  unfold getVisits
  cases hg : aGet m n with
  | none => rfl
  | some e =>
    have := h (n, e) (aGet_mem m n e hg)
    simp only at this
    rw [this]
    rfl

theorem sumDur_aSet (m : List (String × ZoneEntry)) (k : String) (v : ZoneEntry) :
    sumDur (aSet m k v) =
      sumDur m + v.duration - (((aGet m k).getD freshZoneEntry).duration) := by
  induction m with
  | nil => simp [aSet, aGet, sumDur, freshZoneEntry]
  | cons kv rest ih =>
    obtain ⟨k', v'⟩ := kv
    by_cases hk : k' = k
    · subst hk
      simp [aSet, aGet, sumDur]
      ring
    · simp only [aSet, aGet, hk, if_false, sumDur, List.map_cons, List.sum_cons]
      have ih' := ih
      simp only [sumDur] at ih'
      rw [ih']
      ring

theorem sumDur_zoneStep (table : List (String × ZoneEntry)) (name : String)
    (dt ts : ℚ) (lz : Option String) :
    sumDur (zoneStep table name dt ts lz) = sumDur table + dt := by
  unfold zoneStep
  rw [sumDur_aSet]
  by_cases hz : some name ≠ lz <;> simp [hz] <;> ring

theorem sumDur_zoneLoop :
    ∀ (l : List TrackPoint) (prev : TrackPoint) (lz : Option String)
      (table : List (String × ZoneEntry)),
      sumDur (zoneLoop prev lz table l) =
        sumDur table +
          ((((prev :: l).getLast?.map (fun p => p.timestamp)).getD 0) - prev.timestamp) / 1000 := by
  intro l
  induction l with
  | nil =>
    intro prev lz table
    simp [zoneLoop, List.getLast?_singleton]
  | cons p rest ih =>
    intro prev lz table
    simp only [zoneLoop]
    rw [ih p _ _, sumDur_zoneStep, List.getLast?_cons_cons]
    ring

/-- C7: the sum of the zone-time durations over all table entries equals
the elapsed time (in seconds) from the first to the last point; empty and
single-point sequences give total 0 (the first walked point contributes
no duration of its own). -/
theorem zoneTime_durations_total (zones : List (String × Zone))
    (pts : List TrackPoint) :
    sumDur (calculateZoneTime zones pts) = elapsedSec pts := by
  cases pts with
  | nil =>
    rw [show calculateZoneTime zones [] = initZoneTable zones from rfl,
      sumDur_allFresh _ (allFresh_initZoneTable zones)]
    simp [elapsedSec]
  | cons p rest =>
    rw [show calculateZoneTime zones (p :: rest) = zoneLoop p none (initZoneTable zones) rest
        from rfl,
      sumDur_zoneLoop rest p none _, sumDur_allFresh _ (allFresh_initZoneTable zones)]
    simp [elapsedSec]

theorem getVisits_zoneStep (table : List (String × ZoneEntry)) (name n : String)
    (dt ts : ℚ) (lz : Option String) :
    getVisits (zoneStep table name dt ts lz) n =
      getVisits table n + (if some name ≠ lz ∧ name = n then 1 else 0) := by
  unfold zoneStep getVisits
  by_cases hn : name = n
  · subst hn
    rw [aGet_aSet_self]
    by_cases hz : some name ≠ lz
    · simp only [hz, if_true, true_and]
      cases hg : aGet table name <;> simp [hg, freshZoneEntry, hz, Nat.add_comm]
    · simp only [hz, if_false, false_and]
      cases hg : aGet table name <;> simp [hg, freshZoneEntry, hz]
  · rw [aGet_aSet_ne _ _ (fun h => hn h)]
    simp [hn]

theorem getVisits_zoneLoop :
    ∀ (l : List TrackPoint) (prev : TrackPoint) (lz : Option String)
      (table : List (String × ZoneEntry)) (n : String),
      getVisits (zoneLoop prev lz table l) n =
        getVisits table n + visitCount n lz (l.map effZone) := by
  intro l
  induction l with
  | nil => intro prev lz table n; simp [zoneLoop, visitCount]
  | cons p rest ih =>
    intro prev lz table n
    simp only [zoneLoop, List.map_cons, visitCount]
    rw [ih p _ _ n, getVisits_zoneStep]
    omega

/-- C8 (amended): a zone's visit count is incremented for walked point `i`
exactly when its effective zone (`zone || 'Away'`) differs from the
tracked `lastZone`; `lastZone` is initialised to `null`, not to the first
point's zone, so the *first* walked pair always increments — also when
the first two points lie in the same zone.  For `i ≥ 2` the comparison is
against point `i-1`'s effective zone, as the claim states. -/
theorem zoneTime_visits_characterisation (zones : List (String × Zone))
    (pts : List TrackPoint) (n : String) :
    getVisits (calculateZoneTime zones pts) n =
      visitCount n none ((pts.drop 1).map effZone) := by
  cases pts with
  | nil =>
    simp only [List.drop, List.map_nil]
    rw [show calculateZoneTime zones [] = initZoneTable zones from rfl,
      getVisits_allFresh _ _ (allFresh_initZoneTable zones)]
    rfl
  | cons p rest =>
    rw [show calculateZoneTime zones (p :: rest) = zoneLoop p none (initZoneTable zones) rest
        from rfl,
      getVisits_zoneLoop rest p none _ n,
      getVisits_allFresh _ _ (allFresh_initZoneTable zones)]
    simp

/-- C8 counterexample: two consecutive points in the same zone "Home".
The claim predicts no visit increment from walking the first pair, but
`lastZone` starts as `null`, so "Home" is credited one visit. -/
theorem zoneTime_first_pair_visit_cex :
    effZone (homePt 0) = effZone (homePt 60000) ∧
    getVisits (calculateZoneTime [("zone.home", homeZone)]
      [homePt 0, homePt 60000]) "Home" = 1 := by
  constructor
  · rfl
  · decide

/-! ## C10: time accounting in the aggregate statistics -/

theorem statsLoop_spec :
    ∀ (l : List TrackPoint) (prev : TrackPoint) (mv sta dr : ℚ),
      ((statsLoop prev (mv, sta, dr) l).1 + (statsLoop prev (mv, sta, dr) l).2.1 =
        mv + sta +
          ((((prev :: l).getLast?.map (fun p => p.timestamp)).getD 0) - prev.timestamp) / 1000) ∧
      (List.Chain (fun a b => a.timestamp ≤ b.timestamp) prev l →
        (statsLoop prev (mv, sta, dr) l).2.2 - dr ≤ (statsLoop prev (mv, sta, dr) l).1 - mv) := by
  intro l
  induction l with
  | nil =>
    intro prev mv sta dr
    constructor
    · simp [statsLoop, List.getLast?_singleton]
    · intro _; simp [statsLoop]
  | cons p rest ih =>
    intro prev mv sta dr
    constructor
    · by_cases hd : p.isDriving = true
      · simp only [statsLoop, hd, if_true, List.getLast?_cons_cons]
        rw [(ih p (mv + (p.timestamp - prev.timestamp) / 1000) sta
          (dr + (p.timestamp - prev.timestamp) / 1000)).1]
        ring
      · have hdf : p.isDriving = false := by simpa using hd
        by_cases hm : p.isMoving = true
        · simp only [statsLoop, hdf, Bool.false_eq_true, if_false, hm, if_true,
            List.getLast?_cons_cons]
          rw [(ih p (mv + (p.timestamp - prev.timestamp) / 1000) sta dr).1]
          ring
        · have hmf : p.isMoving = false := by simpa using hm
          simp only [statsLoop, hdf, hmf, Bool.false_eq_true, if_false,
            List.getLast?_cons_cons]
          rw [(ih p mv (sta + (p.timestamp - prev.timestamp) / 1000) dr).1]
          ring
    · intro hch
      rcases hch with _ | ⟨hle, hch⟩
      have hdt : (0 : ℚ) ≤ (p.timestamp - prev.timestamp) / 1000 := by
        have h := hle
        have : (0:ℚ) ≤ p.timestamp - prev.timestamp := by linarith
        linarith
      by_cases hd : p.isDriving = true
      · simp only [statsLoop, hd, if_true]
        have h2 := (ih p (mv + (p.timestamp - prev.timestamp) / 1000) sta
          (dr + (p.timestamp - prev.timestamp) / 1000)).2 hch
        linarith
      · have hdf : p.isDriving = false := by simpa using hd
        by_cases hm : p.isMoving = true
        · simp only [statsLoop, hdf, Bool.false_eq_true, if_false, hm, if_true]
          have h2 := (ih p (mv + (p.timestamp - prev.timestamp) / 1000) sta dr).2 hch
          linarith
        · have hmf : p.isMoving = false := by simpa using hm
          simp only [statsLoop, hdf, hmf, Bool.false_eq_true, if_false]
          have h2 := (ih p mv (sta + (p.timestamp - prev.timestamp) / 1000) dr).2 hch
          linarith

/-- C10: for a processed (time-ordered) point sequence with at least two
points, `movingTime + stationaryTime = duration`, `drivingTime ≤
movingTime`, and `duration` is the last minus the first timestamp in
seconds: each inter-point interval is attributed to exactly one bucket by
the later point's flags, and driving intervals also count as moving. -/
theorem calculateStats_time_accounting (d : DistFn) (pts : List TrackPoint)
    (h2 : 2 ≤ pts.length)
    (hs : List.Chain' (fun a b : TrackPoint => a.timestamp ≤ b.timestamp) pts) :
    (calculateStats d pts).movingTime + (calculateStats d pts).stationaryTime =
      (calculateStats d pts).duration ∧
    (calculateStats d pts).drivingTime ≤ (calculateStats d pts).movingTime ∧
    (calculateStats d pts).duration =
      (((pts.getLast?.map (fun p => p.timestamp)).getD 0) -
        ((pts.head?.map (fun p => p.timestamp)).getD 0)) / 1000 := by
  match pts, h2 with
  | p0 :: p1 :: rest, _ =>
    have hmv : (calculateStats d (p0 :: p1 :: rest)).movingTime =
        (statsLoop p0 (0, 0, 0) (p1 :: rest)).1 := rfl
    have hsta : (calculateStats d (p0 :: p1 :: rest)).stationaryTime =
        (statsLoop p0 (0, 0, 0) (p1 :: rest)).2.1 := rfl
    have hdr : (calculateStats d (p0 :: p1 :: rest)).drivingTime =
        (statsLoop p0 (0, 0, 0) (p1 :: rest)).2.2 := rfl
    have hdur : (calculateStats d (p0 :: p1 :: rest)).duration =
        ((((p0 :: p1 :: rest).getLast?.map (fun p => p.timestamp)).getD 0) -
          p0.timestamp) / 1000 := rfl
    have hchain : List.Chain (fun a b : TrackPoint => a.timestamp ≤ b.timestamp)
        p0 (p1 :: rest) := hs
    have hspec := statsLoop_spec (p1 :: rest) p0 0 0 0
    refine ⟨?_, ?_, ?_⟩
    · rw [hmv, hsta, hdur]
      have := hspec.1
      linarith
    · rw [hdr, hmv]
      have := hspec.2 hchain
      linarith
    · rw [hdur]
      simp

/-- Witness for C10 at a concrete two-point sequence. -/
theorem calculateStats_time_accounting_witness :
    (2 ≤ ([routePtA, routePtB] : List TrackPoint).length ∧
      List.Chain' (fun a b : TrackPoint => a.timestamp ≤ b.timestamp)
        [routePtA, routePtB]) ∧
    (calculateStats (constDist 0) [routePtA, routePtB]).movingTime +
        (calculateStats (constDist 0) [routePtA, routePtB]).stationaryTime =
      (calculateStats (constDist 0) [routePtA, routePtB]).duration := by
  refine ⟨⟨by norm_num, by norm_num [List.chain'_cons, List.chain'_singleton, routePtA, routePtB, basePt]⟩, ?_⟩
  exact (calculateStats_time_accounting (constDist 0) [routePtA, routePtB]
    (by norm_num) (by norm_num [List.chain'_cons, List.chain'_singleton, routePtA, routePtB, basePt])).1

/-! ## C9: playback point lookup -/

theorem lookupGo_mem (target : ℚ) :
    ∀ (l : List TrackPoint) (cur : TrackPoint),
      lookupGo target cur l = cur ∨ lookupGo target cur l ∈ l := by
  intro l
  induction l with
  | nil => intro cur; left; rfl
  | cons p rest ih =>
    intro cur
    by_cases hp : p.timestamp ≤ target
    · simp only [lookupGo, hp, if_true]
      rcases ih p with h | h
      · right; rw [h]; exact List.mem_cons_self _ _
      · right; exact List.mem_cons_of_mem _ h
    · have hres : lookupGo target cur (p :: rest) = cur := by
        simp [lookupGo, hp]
      rw [hres]
      exact Or.inl rfl

theorem lookupGo_le (target : ℚ) :
    ∀ (l : List TrackPoint) (cur : TrackPoint), cur.timestamp ≤ target →
      (lookupGo target cur l).timestamp ≤ target := by
  intro l
  induction l with
  | nil => intro cur h; exact h
  | cons p rest ih =>
    intro cur h
    by_cases hp : p.timestamp ≤ target
    · simp only [lookupGo, hp, if_true]; exact ih p hp
    · simp only [lookupGo, hp, if_false]; exact h

theorem chain_le_mem {p q : TrackPoint} :
    ∀ {l : List TrackPoint},
      List.Chain (fun a b : TrackPoint => a.timestamp ≤ b.timestamp) p l →
      q ∈ l → p.timestamp ≤ q.timestamp := by
  intro l
  induction l generalizing p with
  | nil => intro _ hq; simp at hq
  | cons a rest ih =>
    intro hch hq
    rcases hch with _ | ⟨hpa, hch⟩
    rcases List.mem_cons.mp hq with h | h
    · rw [h]; exact hpa
    · exact le_trans hpa (ih hch h)

theorem lookupGo_ge_cur (target : ℚ) :
    ∀ (l : List TrackPoint) (cur : TrackPoint),
      List.Chain (fun a b : TrackPoint => a.timestamp ≤ b.timestamp) cur l →
      cur.timestamp ≤ (lookupGo target cur l).timestamp := by
  intro l
  induction l with
  | nil => intro cur _; exact le_refl _
  | cons p rest ih =>
    intro cur hch
    rcases hch with _ | ⟨hcp, hch⟩
    by_cases hp : p.timestamp ≤ target
    · simp only [lookupGo, hp, if_true]
      exact le_trans hcp (ih p hch)
    · simp only [lookupGo, hp, if_false]
      exact le_refl _

theorem lookupGo_ge_all (target : ℚ) :
    ∀ (l : List TrackPoint) (cur : TrackPoint),
      List.Chain (fun a b : TrackPoint => a.timestamp ≤ b.timestamp) cur l →
      ∀ q ∈ l, q.timestamp ≤ target →
        q.timestamp ≤ (lookupGo target cur l).timestamp := by
  intro l
  induction l with
  | nil => intro cur _ q hq; simp at hq
  | cons p rest ih =>
    intro cur hch q hq hqt
    rcases hch with _ | ⟨hcp, hch⟩
    by_cases hp : p.timestamp ≤ target
    · simp only [lookupGo, hp, if_true]
      rcases List.mem_cons.mp hq with h | h
      · rw [h]; exact lookupGo_ge_cur target rest p hch
      · exact ih p hch q h hqt
    · simp only [lookupGo, hp, if_false]
      rcases List.mem_cons.mp hq with h | h
      · rw [h] at hqt; exact absurd hqt hp
      · exact absurd (le_trans (chain_le_mem hch h) hqt) hp

theorem lookupGo_last (target : ℚ) :
    ∀ (l : List TrackPoint) (cur : TrackPoint),
      List.Chain (fun a b : TrackPoint => a.timestamp ≤ b.timestamp) cur l →
      (l.getLast?.getD cur).timestamp ≤ target →
      lookupGo target cur l = l.getLast?.getD cur := by
  intro l
  induction l with
  | nil => intro cur _ _; rfl
  | cons p rest ih =>
    intro cur hch hlast
    rcases hch with _ | ⟨hcp, hch⟩
    have hrw : ((p :: rest).getLast?.getD cur) = rest.getLast?.getD p := by
      rw [List.getLast?_cons]; rfl
    rw [hrw] at hlast ⊢
    have hple : p.timestamp ≤ (rest.getLast?.getD p).timestamp := by
      cases hr : rest with
      | nil => simp
      | cons a rest' =>
        rw [List.getLast?_eq_getLast_of_ne_nil (List.cons_ne_nil a rest')]
        simp only [Option.getD_some]
        exact chain_le_mem (hr ▸ hch) (List.getLast_mem _)
    have hp : p.timestamp ≤ target := le_trans hple hlast
    simp only [lookupGo, hp, if_true]
    exact ih p hch hlast

/-- C9: for a non-empty time-ordered route, the playback lookup selects a
point of the route whose timestamp is the latest one `≤` the target when
one exists; a target before every timestamp selects the first point, and
a target at or after the last timestamp selects the last point. -/
theorem playback_lookup_spec (target : ℚ) (p0 : TrackPoint) (rest : List TrackPoint)
    (hs : List.Chain' (fun a b : TrackPoint => a.timestamp ≤ b.timestamp) (p0 :: rest)) :
    ∃ r, lookupPointAt target (p0 :: rest) = some r ∧
      r ∈ p0 :: rest ∧
      (target < p0.timestamp → r = p0) ∧
      (p0.timestamp ≤ target →
        r.timestamp ≤ target ∧
          ∀ q ∈ p0 :: rest, q.timestamp ≤ target → q.timestamp ≤ r.timestamp) ∧
      (((p0 :: rest).getLast?.getD p0).timestamp ≤ target →
        r = (p0 :: rest).getLast?.getD p0) := by
  have hch0 : List.Chain (fun a b : TrackPoint => a.timestamp ≤ b.timestamp) p0 rest := hs
  have hch : List.Chain (fun a b : TrackPoint => a.timestamp ≤ b.timestamp) p0 (p0 :: rest) :=
    List.Chain.cons (le_refl _) hch0
  refine ⟨lookupGo target p0 (p0 :: rest), rfl, ?_, ?_, ?_, ?_⟩
  · rcases lookupGo_mem target (p0 :: rest) p0 with h | h
    · rw [h]; exact List.mem_cons_self _ _
    · exact h
  · intro hlt
    simp [lookupGo, not_le.mpr hlt]
  · intro hle
    exact ⟨lookupGo_le target (p0 :: rest) p0 hle, fun q hq hqt =>
      lookupGo_ge_all target (p0 :: rest) p0 hch q hq hqt⟩
  · intro hlast
    exact lookupGo_last target (p0 :: rest) p0 hch hlast

/-- Witness for C9 at a concrete two-point route and target 150. -/
theorem playback_lookup_spec_witness :
    List.Chain' (fun a b : TrackPoint => a.timestamp ≤ b.timestamp)
      [routePtA, routePtB] ∧
    ∃ r, lookupPointAt 150 [routePtA, routePtB] = some r ∧
      r ∈ [routePtA, routePtB] ∧
      ((150 : ℚ) < routePtA.timestamp → r = routePtA) ∧
      (routePtA.timestamp ≤ 150 →
        r.timestamp ≤ 150 ∧
          ∀ q ∈ [routePtA, routePtB], q.timestamp ≤ 150 → q.timestamp ≤ r.timestamp) ∧
      ((([routePtA, routePtB] : List TrackPoint).getLast?.getD routePtA).timestamp ≤ 150 →
        r = ([routePtA, routePtB] : List TrackPoint).getLast?.getD routePtA) := by
  constructor
  · norm_num [List.chain'_cons, List.chain'_singleton, routePtA, routePtB, basePt]
  · exact playback_lookup_spec 150 routePtA [routePtB]
      (by norm_num [List.chain'_cons, List.chain'_singleton, routePtA, routePtB, basePt])
